import Mathlib

/-!
Shallow embedding of `f_manager/mod.py` (class `Mod`): the dependency
classifier, the lazily cached package state, the catalog interaction and
the install / update / upgrade / remove workflows, together with theorems
checking the natural-language specification against this embedding.

Strings are modelled as `List Char` so that the Python string primitives
(`str.startswith`, `str.strip(chars)`, `str.strip()`, `str.split()`,
`str.rsplit("_", 1)`) can be given exact executable counterparts.
-/

namespace FManager

/-- Python strings, modelled as lists of characters. -/
abbrev Str := List Char

/-- Coerce a Lean string literal into the model's string type. -/
def str (s : String) : Str := s.toList

/-- The root package name (`"base"` in the source). -/
def baseName : Str := str "base"

/-- The whitespace characters honoured by Python's `str.strip()` /
`str.split()` with no arguments. -/
def pySpace (c : Char) : Bool :=
  c == ' ' || c == '\t' || c == '\n' || c == '\r' || c == Char.ofNat 11 || c == Char.ofNat 12

/-- Strip characters satisfying `p` from the left end (`str.lstrip`). -/
def lstripWith (p : Char → Bool) (s : Str) : Str := s.dropWhile p

/-- Strip characters satisfying `p` from the right end (`str.rstrip`). -/
def rstripWith (p : Char → Bool) (s : Str) : Str := (s.reverse.dropWhile p).reverse

/-- Strip characters satisfying `p` from both ends (`str.strip`). -/
def stripWith (p : Char → Bool) (s : Str) : Str := rstripWith p (lstripWith p s)

/-- Python `s.strip(chars)`: `chars` is a character *set*, stripped from
both ends of `s`. -/
def stripChars (cs : Str) (s : Str) : Str := stripWith (fun c => cs.contains c) s

/-- Python `s.strip()` with no argument: strip whitespace from both ends. -/
def stripWs (s : Str) : Str := stripWith pySpace s

/-- Python `s.split()[0]`: first whitespace-delimited token of `s`.
`none` models the `IndexError` raised when `s.split()` is empty. -/
def splitHead (s : Str) : Option Str :=
  let t := s.dropWhile pySpace
  if t.isEmpty then none else some (t.takeWhile (fun c => !pySpace c))

/-! ## The dependency classifier (`Mod._parse_dependency`) -/

/-- The category table passed to `_parse_dependency` by `Mod.dependencies`:
an ordered mapping from category name to its recognized prefix strings,
with `none` marking the default category (`"require"`). -/
def categoriesTable : List (String × Option (List Str)) :=
  [("optional", some [str "?", str "(?)"]),
   ("conflict", some [str "!", str "(!)"]),
   ("parent",   some [str "~", str "(~)"]),
   ("require",  none)]

/-- `reduce(+, filter(truthy, categories.values()))`: all prefix strings of
the non-default categories, in declaration order. -/
def allPrefixStrings : List Str := (categoriesTable.filterMap Prod.snd).flatten

/-- `any(map(lambda p: raw.startswith(p), ps))`. -/
def startsWithAny (ps : List Str) (s : Str) : Bool :=
  ps.any (fun p => p.isPrefixOf s)

/-- The loop `for prefix in prefixes: dependency = dependency.strip(prefix)`:
each prefix string is applied as a *character set* strip (Python
`str.strip(chars)` semantics), in declared order. -/
def stripEachAsCharSet (ps : List Str) (s : Str) : Str :=
  ps.foldl (fun acc p => stripChars p acc) s

/-- The `for category, prefixes in categories.items()` scan inside the
matched branch: the first category one of whose prefixes starts the raw
string.  A `none` prefix set would make the source raise a `TypeError`
(`map` over `None`); that arm is unreachable behind the `any` guard and is
modelled as a failure. -/
def findMatchingCategory : List (String × Option (List Str)) → Str → Option (String × List Str)
  | [], _ => none
  | (cat, some ps) :: rest, raw =>
    if startsWithAny ps raw then some (cat, ps) else findMatchingCategory rest raw
  | (_, none) :: _, _ => none

/-- The `for category, prefixes in categories.items(): if prefixes is None`
scan of the unmatched branch: the first category with a `None` prefix set. -/
def defaultCategory : List (String × Option (List Str)) → Option String
  | [] => none
  | (cat, none) :: _ => some cat
  | _ :: rest => defaultCategory rest

/-- `Mod._parse_dependency(dependency_raw, categories)` at the category
table used by `Mod.dependencies`.  Returns `(category, package name)`;
`none` models the `IndexError` of `.split()[0]` on a declaration with no
token left (and the unreachable `TypeError` arms). -/
def parse_dependency (raw : Str) : Option (String × Str) :=
  if startsWithAny allPrefixStrings raw then
    match findMatchingCategory categoriesTable raw with
    | some (cat, ps) =>
      (splitHead (stripWs (stripEachAsCharSet ps raw))).map (fun n => (cat, n))
    | none => none
  else
    match defaultCategory categoriesTable with
    | some cat => (splitHead (stripWs raw)).map (fun n => (cat, n))
    | none => none

/-! ## Package data model -/

/-- The four-category dependency dictionary (`Mod._dependencies`).
Dependency references are held by package name (a `Mod` handle in the
source is identified purely by its `name`). -/
structure Deps where
  require : List Str
  optional : List Str
  conflict : List Str
  parent : List Str
  deriving DecidableEq, Repr

/-- The freshly constructed `_dependencies` dict: four empty lists. -/
def emptyDeps : Deps := ⟨[], [], [], []⟩

/-- `all(self._dependencies.values())`: true when all four lists are
non-empty. -/
def allNonempty (d : Deps) : Bool :=
  !d.require.isEmpty && !d.optional.isEmpty && !d.conflict.isEmpty && !d.parent.isEmpty

/-- `self._dependencies[category] = (self._dependencies.get(category) or []) + [Mod(dependency)]`. -/
def addDep (d : Deps) (cat : String) (n : Str) : Deps :=
  if cat = "require" then { d with require := d.require ++ [n] }
  else if cat = "optional" then { d with optional := d.optional ++ [n] }
  else if cat = "conflict" then { d with conflict := d.conflict ++ [n] }
  else if cat = "parent" then { d with parent := d.parent ++ [n] }
  else d

/-- The classification loop of `Mod.dependencies`: classify each raw
declaration and append it to the matching category, starting from the
current `_dependencies` contents.  `none` propagates a classification
failure (`IndexError`). -/
def parseDeps : List Str → Deps → Option Deps
  | [], acc => some acc
  | raw :: rest, acc =>
    match parse_dependency raw with
    | none => none
    | some (cat, n) => parseDeps rest (addDep acc cat n)

/-- One remote release record
(`{version, download_url, file_name, info_json: {dependencies}}`). -/
structure Release where
  version : Str
  download_url : Str
  file_name : Str
  deps : List Str
  deriving DecidableEq, Repr

/-- A catalog reply for one mod: HTTP status plus the release list
(ordered oldest to newest; `releases[-1]` is the latest). -/
structure RemoteInfo where
  status : Nat
  releases : List Release
  deriving DecidableEq, Repr

/-- One file in the local mods folder: its file name (with extension) and
the `dependencies` list of the `info.json` inside the archive. -/
structure ArchiveFile where
  fileName : Str
  deps : List Str
  deriving DecidableEq, Repr

/-- The external world: the root manifest's version and the catalog,
keyed by mod name. -/
structure Env where
  baseVersion : Str
  remote : List (Str × RemoteInfo)
  deriving DecidableEq, Repr

/-- `requests.get(f"{mods_url}/{name}/full")`: an unknown name is served
as a non-success (status 0) reply with an empty body. -/
def lookupRemote (env : Env) (name : Str) : RemoteInfo :=
  match env.remote.find? (fun e => e.1 == name) with
  | some e => e.2
  | none => ⟨0, []⟩

/-! ## Filesystem scanning helpers -/

/-- `.zip` extension. -/
def zipExt : Str := str ".zip"

/-- Drop the last `n` characters. -/
def dropLastN (n : Nat) (s : Str) : Str := (s.reverse.drop n).reverse

/-- `Path.stem` of a file selected by `rglob('*.zip')`: `none` when the
file is not a zip archive (such files are invisible to every scan). -/
def zipStem? (s : Str) : Option Str :=
  if zipExt.isSuffixOf s then some (dropLastN 4 s) else none

/-- `stem.rsplit("_", 1)[0]`: everything before the last underscore, or
the whole stem when there is none. -/
def stemName (s : Str) : Str :=
  match s.reverse.dropWhile (fun c => c != '_') with
  | [] => s
  | _ :: rest => rest.reverse

/-- `stem.rsplit("_", 1)[1]`: everything after the last underscore.  (For
a stem with no underscore the source's tuple unpacking would raise; the
model returns the whole stem, an arm no theorem relies on.) -/
def stemVersion (s : Str) : Str := (s.reverse.takeWhile (fun c => c != '_')).reverse

/-- The mod names visible in the mods folder:
`map(lambda f: f.stem.rsplit("_", 1)[0], rglob('*.zip'))`. -/
def storeNames (store : List ArchiveFile) : List Str :=
  (store.filterMap (fun f => zipStem? f.fileName)).map stemName

/-- `Mod.downloaded`: the name is `"base"` or some zip archive's stem
names it.  (The source caches only a `True` result, so the property is
behaviourally a pure function of the folder contents.) -/
def downloaded (name : Str) (store : List ArchiveFile) : Bool :=
  if name == baseName then true else (storeNames store).contains name

/-- The first zip archive whose stem name matches, as found by
`for filename in rglob("*.zip"): ... break`. -/
def findArchive (store : List ArchiveFile) (name : Str) : Option ArchiveFile :=
  store.find? (fun f =>
    match zipStem? f.fileName with
    | some st => stemName st == name
    | none => false)

/-- `Mod.version`: `None` when not downloaded; the root manifest's version
for `"base"`; otherwise the version part of the first matching archive's
stem. -/
def versionOf (name : Str) (store : List ArchiveFile) (env : Env) : Option Str :=
  if !downloaded name store then none
  else if name == baseName then some env.baseVersion
  else
    match findArchive store name with
    | some f => (zipStem? f.fileName).map stemVersion
    | none => none

/-- The raw declaration list used by `Mod.dependencies`: from the local
archive's `info.json` when downloaded, else from the latest release of the
catalog's reply (that path performs no status check; an empty release list
models the `IndexError` of `releases[-1]`). -/
def fetchRawDeps (name : Str) (store : List ArchiveFile) (env : Env) : Option (List Str) :=
  if downloaded name store then
    match findArchive store name with
    | some f => some f.deps
    | none => none
  else
    ((lookupRemote env name).releases.getLast?).map Release.deps

/-- `Mod.dependencies` as a function of the instance's current
`_dependencies` cache: return the cache when all four categories are
non-empty or the mod is the root; otherwise fetch the raw declarations and
append each classified entry to the cache. -/
def dependenciesProp (name : Str) (cache : Deps) (store : List ArchiveFile) (env : Env) :
    Option Deps :=
  if allNonempty cache || name == baseName then some cache
  else
    match fetchRawDeps name store env with
    | none => none
    | some raws => parseDeps raws cache

/-- `Mod(name).dependencies` on a fresh handle (empty cache), the form
every enumeration-driven scan uses. -/
def modDependencies (name : Str) (store : List ArchiveFile) (env : Env) : Option Deps :=
  dependenciesProp name emptyDeps store env

/-- `Mod.downloaded_mods`' generator body: the root package first, then
one handle per zip archive in the mods folder. -/
def downloadedNames (store : List ArchiveFile) : List Str :=
  baseName :: storeNames store

/-! ## Exceptions and logged events -/

/-- The exceptions raised by the workflows (`f_manager.exceptions`), plus
`internalErr` for unhandled Python-level failures (`IndexError`,
`TypeError`, …) and `outOfFuel` for an exhausted recursion budget. -/
inductive Err where
  | modAlreadyExists (name : Str)
  | versionNotFound (name : Str) (v : Str)
  | modNotFound (name : Str)
  | baseModRemove
  | internalErr
  | outOfFuel
  deriving DecidableEq, Repr

/-- The `logger` calls the workflows make, with their levels encoded in
the constructor names (`warn…` = `logger.warning`, `info…` =
`logger.info`). -/
inductive Event where
  | warnServerDown (status : Nat)
  | infoInstalled (name : Str) (v : Str)
  | warnNotDownloaded (name : Str)
  | infoRemoved (name : Str)
  | warnAlreadyLatest (name : Str)
  | infoUpgraded (name : Str) (oldV : Option Str) (newV : Str)
  deriving DecidableEq, Repr

deriving instance DecidableEq for Except

/-! ## `Mod.download` -/

/-- Outcome of the release-selection step of `Mod.download` (the
`if not release_json:` block). -/
inductive SelectResult where
  | serverDown (status : Nat)
  | versionMissing (v : Str)
  | crashed
  | chosen (r : Release)
  deriving DecidableEq, Repr

/-- The release-selection step: an explicitly supplied `release_json`
short-circuits everything; otherwise query the catalog, warn-and-return on
a non-200 status, and pick `releases[-1]` (no `version` argument) or the
release with the matching version (`VersionNotFoundError` when absent).
`crashed` models `releases[-1]` on an empty list. -/
def selectRelease (name : Str) (v : Option Str) (releaseJson : Option Release) (env : Env) :
    SelectResult :=
  match releaseJson with
  | some r => .chosen r
  | none =>
    let info := lookupRemote env name
    if info.status != 200 then .serverDown info.status
    else
      match v with
      | none =>
        match info.releases.getLast? with
        | some r => .chosen r
        | none => .crashed
      | some ver =>
        match info.releases.find? (fun r => r.version == ver) with
        | some r => .chosen r
        | none => .versionMissing ver

/-- `Mod.dependencies` as evaluated right after a download: the instance
has `_downloaded` forcibly cached `True`, so the local-archive branch is
taken unconditionally (`none` models `zipfile.ZipFile(None)` when the
written file is invisible to the zip scan). -/
def depsAfterInstall (name : Str) (store : List ArchiveFile) : Option Deps :=
  match findArchive store name with
  | some f => parseDeps f.deps emptyDeps
  | none => none

/-- `Mod.download(version, release_json)`.  Raises `ModAlreadyExistsError`
first; selects a release; writes the release's file into the mods folder;
logs the install; then recursively downloads every not-yet-downloaded
name in `parent + require` order.  `fuel` bounds the recursion depth;
recursive calls (`mod.download()`) pass no version and no release. -/
def downloadGo (fuel : Nat) (name : Str) (v : Option Str) (releaseJson : Option Release)
    (env : Env) (store : List ArchiveFile) (log : List Event) :
    Except Err (List ArchiveFile × List Event) :=
  match fuel with
  | 0 => .error .outOfFuel
  | fuel + 1 =>
    if downloaded name store then .error (.modAlreadyExists name)
    else
      match selectRelease name v releaseJson env with
      | .serverDown st => .ok (store, log ++ [.warnServerDown st])
      | .versionMissing ver => .error (.versionNotFound name ver)
      | .crashed => .error .internalErr
      | .chosen rel =>
        let store1 := store ++ [⟨rel.file_name, rel.deps⟩]
        let log1 := log ++ [.infoInstalled name rel.version]
        match depsAfterInstall name store1 with
        | none => .error .internalErr
        | some d =>
          (d.parent ++ d.require).foldlM
            (fun (sl : List ArchiveFile × List Event) m =>
              if downloaded m sl.1 then Except.ok sl
              else downloadGo fuel m none none env sl.1 sl.2)
            (store1, log1)

/-! ## `Mod.update` and `Mod.upgrade` -/

/-- `Mod.update()`: raises `ModNotFoundError` when not downloaded; returns
the truthy `_has_new_version` cache when present; warns and returns `None`
on a non-200 catalog reply; otherwise stores and returns `releases[-1]`.
(The source compares `self.version == releases[-1]["version"]` and assigns
`self._has_new_version = None`, but the next statement unconditionally
overwrites that with `releases[-1]`, so the comparison has no effect.)
Result: `(returned value, new `_has_new_version` cache, log)`. -/
def update (name : Str) (hasNew : Option Release) (env : Env) (store : List ArchiveFile)
    (log : List Event) : Except Err (Option Release × Option Release × List Event) :=
  if !downloaded name store then .error (.modNotFound name)
  else
    match hasNew with
    | some r => .ok (some r, some r, log)
    | none =>
      let info := lookupRemote env name
      if info.status != 200 then .ok (none, none, log ++ [.warnServerDown info.status])
      else
        match info.releases.getLast? with
        | none => .error .internalErr
        | some last => .ok (some last, some last, log)

/-! ## `Mod.remove` -/

/-- The inner `for downloaded_mod in Mod.downloaded_mods(): ... break/else`
scan of the orphan phase: is `dep` named in any enumerated mod's
`require + optional` category?  `none` propagates a crash while computing
a scanned mod's dependencies. -/
def anyRefs (ms : List Str) (dep : Str) (store : List ArchiveFile) (env : Env) : Option Bool :=
  match ms with
  | [] => some false
  | m :: rest =>
    match modDependencies m store env with
    | none => none
    | some d =>
      if (d.require ++ d.optional).contains dep then some true
      else anyRefs rest dep store env

/-- Delete the first zip archive whose stem names `name`
(`mod_file.unlink(); break`). -/
def removeFirst (store : List ArchiveFile) (name : Str) : List ArchiveFile :=
  match store with
  | [] => []
  | f :: rest =>
    match zipStem? f.fileName with
    | some st => if stemName st == name then rest else f :: removeFirst rest name
    | none => f :: removeFirst rest name

/-- `Mod.remove()`.  Raises `BaseModRemoveError` for the root; warns and
returns when not downloaded; deletes the archive; then phase 1 removes
every enumerated mod whose `require` or `parent` names this mod and which
is still downloaded, and phase 2 removes every entry of this mod's own
`require` category that no enumerated mod's `require + optional` still
names.  Phase 2 recomputes this mod's dependencies *after* the archive is
gone, hence from the catalog's latest release.

The source spells the enumeration `Mod.downloaded_mods()`; because
`downloaded_mods` is a `classmethod`-wrapped `property` whose getter is a
generator function, that call expression raises `TypeError` at runtime on
every Python version.  The model uses the enumeration the property's body
defines (root first, then one handle per archive), i.e. the behaviour the
call site plainly intends. -/
def removeGo (fuel : Nat) (name : Str) (env : Env) (store : List ArchiveFile)
    (log : List Event) : Except Err (List ArchiveFile × List Event) :=
  match fuel with
  | 0 => .error .outOfFuel
  | fuel + 1 =>
    if name == baseName then .error .baseModRemove
    else if !downloaded name store then .ok (store, log ++ [.warnNotDownloaded name])
    else
      let store1 := removeFirst store name
      let log1 := log ++ [.infoRemoved name]
      match
        (downloadedNames store1).foldlM
          (fun (sl : List ArchiveFile × List Event) m =>
            match modDependencies m sl.1 env with
            | none => Except.error Err.internalErr
            | some d =>
              if (d.require.contains name || d.parent.contains name) && downloaded m sl.1 then
                removeGo fuel m env sl.1 sl.2
              else Except.ok sl)
          (store1, log1)
      with
      | .error e => .error e
      | .ok (store2, log2) =>
        match modDependencies name store2 env with
        | none => .error .internalErr
        | some d =>
          d.require.foldlM
            (fun (sl : List ArchiveFile × List Event) dep =>
              match anyRefs (downloadedNames sl.1) dep sl.1 env with
              | none => Except.error Err.internalErr
              | some true => Except.ok sl
              | some false =>
                if downloaded dep sl.1 then removeGo fuel dep env sl.1 sl.2
                else Except.ok sl)
            (store2, log2)

/-- `Mod.upgrade()`: check for a new release; warn and return when the
check reports none; otherwise remove the mod (cascading) and re-download
it pinned to the fetched release, logging the old and new versions. -/
def upgrade (fuel : Nat) (name : Str) (hasNew : Option Release) (env : Env)
    (store : List ArchiveFile) (log : List Event) :
    Except Err (List ArchiveFile × List Event) :=
  match update name hasNew env store log with
  | .error e => .error e
  | .ok (none, _, log') => .ok (store, log' ++ [.warnAlreadyLatest name])
  | .ok (some rel, _, log') =>
    let oldV := versionOf name store env
    match removeGo fuel name env store log' with
    | .error e => .error e
    | .ok (store1, log1) =>
      match downloadGo fuel name none (some rel) env store1 log1 with
      | .error e => .error e
      | .ok (store2, log2) => .ok (store2, log2 ++ [.infoUpgraded name oldV rel.version])

/-! ## Well-formedness predicates for declaration fragments -/

/-- The characters from which the category prefixes are drawn. -/
def specialChars : Str := str "?()!~"

/-- A plain package-name character: neither whitespace nor a prefix
character. -/
def plainChar (c : Char) : Bool := !pySpace c && !specialChars.contains c

/-- A well-formed package name: non-empty and made of plain characters. -/
def validNameB (n : Str) : Bool := !n.isEmpty && n.all plainChar

/-- A well-formed trailing constraint or comment in a dependency
declaration: absent, or separated from the name by whitespace. -/
def tailOkB (t : Str) : Bool :=
  match t with
  | [] => true
  | c :: _ => pySpace c

/-- The registered (category, prefix) pairs of the non-default
categories, flattened in scan order. -/
def prefixTable : List (String × Str) :=
  [("optional", str "?"), ("optional", str "(?)"),
   ("conflict", str "!"), ("conflict", str "(!)"),
   ("parent", str "~"), ("parent", str "(~)")]

/-! ## Helper lemmas -/

/-- A monadic fold whose body only ever extends the store extends the
store. -/
theorem foldlM_store_prefix {β : Type}
    (body : (List ArchiveFile × List Event) → β → Except Err (List ArchiveFile × List Event))
    (hbody : ∀ sl m s' l', body sl m = .ok (s', l') → sl.1 <+: s') :
    ∀ (l : List β) (init : List ArchiveFile × List Event) s' l',
      l.foldlM body init = .ok (s', l') → init.1 <+: s' := by
  intro l
  induction l with
  | nil =>
    intro init s' l' h
    simp only [List.foldlM_nil] at h
    cases h
    exact List.prefix_refl _
  | cons b bs ih =>
    intro init s' l' h
    simp only [List.foldlM_cons] at h
    cases hb : body init b with
    | error e => rw [hb] at h; exact absurd h (by simp [Bind.bind, Except.bind])
    | ok mid =>
      rw [hb] at h
      simp only [Bind.bind, Except.bind] at h
      have h1 : init.1 <+: mid.1 := hbody init b mid.1 mid.2 (by rw [hb])
      exact h1.trans (ih mid s' l' h)

/-- `Mod.download` never shrinks the mods folder: on success the final
folder extends the initial one. -/
theorem downloadGo_extends :
    ∀ (fuel : Nat) (name : Str) (v : Option Str) (rj : Option Release) (env : Env)
      (store : List ArchiveFile) (log : List Event) store' log',
      downloadGo fuel name v rj env store log = .ok (store', log') → store <+: store' := by
  intro fuel
  induction fuel with
  | zero => intro name v rj env store log store' log' h; simp [downloadGo] at h
  | succ fuel ih =>
    intro name v rj env store log store' log' h
    rw [downloadGo] at h
    by_cases hd : downloaded name store
    · simp [hd] at h
    · simp only [hd, if_false, Bool.false_eq_true] at h
      cases hsel : selectRelease name v rj env with
      | serverDown st =>
        rw [hsel] at h
        cases h
        exact List.prefix_refl _
      | versionMissing ver => rw [hsel] at h; exact absurd h (by simp)
      | crashed => rw [hsel] at h; exact absurd h (by simp)
      | chosen rel =>
        rw [hsel] at h
        simp only at h
        cases hdeps : depsAfterInstall name (store ++ [⟨rel.file_name, rel.deps⟩]) with
        | none => rw [hdeps] at h; exact absurd h (by simp)
        | some d =>
          rw [hdeps] at h
          have hext :
              (store ++ [(⟨rel.file_name, rel.deps⟩ : ArchiveFile)], log ++ [.infoInstalled name rel.version]).1 <+: store' := by
            refine foldlM_store_prefix _ ?_ _ _ _ _ h
            intro sl m s' l' hb
            by_cases hm : downloaded m sl.1
            · simp only [hm, if_true] at hb
              cases hb
              exact List.prefix_refl _
            · simp only [hm, if_false, Bool.false_eq_true] at hb
              exact ih m none none env sl.1 sl.2 s' l' hb
          exact (List.prefix_append store _).trans hext

/-! ## String lemmas for the classifier proofs -/

theorem rstripWith_eq_rdropWhile (f : Char → Bool) (s : Str) :
    rstripWith f s = s.rdropWhile f := rfl

/-- `dropWhile` keeps a list whose head fails the predicate. -/
theorem dropWhile_stop {f : Char → Bool} {l : Str}
    (h : ∀ c, l.head? = some c → f c = false) : l.dropWhile f = l := by
  cases l with
  | nil => rfl
  | cons a l => exact List.dropWhile_cons_of_neg (by simp [h a rfl])

theorem pySpace_not_special {c : Char} (h : pySpace c = true) :
    specialChars.contains c = false := by
  simp only [pySpace, Bool.or_eq_true, beq_iff_eq] at h
  rcases h with ((((rfl | rfl) | rfl) | rfl) | rfl) | rfl <;> rfl

theorem plainChar_not_special {c : Char} (h : plainChar c = true) :
    specialChars.contains c = false := by
  simp only [plainChar, Bool.and_eq_true, Bool.not_eq_true'] at h
  exact h.2

theorem plainChar_not_space {c : Char} (h : plainChar c = true) : pySpace c = false := by
  simp only [plainChar, Bool.and_eq_true, Bool.not_eq_true'] at h
  exact h.1

/-- A string of prefix characters contains no whitespace character and no
plain character. -/
theorem contains_false_of_not_special {S : Str} (hS : ∀ x ∈ S, specialChars.contains x = true)
    {c : Char} (hc : specialChars.contains c = false) : S.contains c = false := by
  by_contra hmem
  rw [Bool.not_eq_false] at hmem
  have hcS : c ∈ S := by simpa [List.contains] using hmem
  rw [hS c hcS] at hc
  cases hc

theorem special_beq_false {a c : Char} (ha : specialChars.contains a = true)
    (hc : specialChars.contains c = false) : (a == c) = false := by
  by_contra hb
  rw [Bool.not_eq_false] at hb
  have hac : a = c := by simpa using hb
  subst hac
  rw [ha] at hc
  cases hc

theorem isPrefixOf_head_false {a : Char} {as l : Str}
    (h : ∀ c, l.head? = some c → (a == c) = false) : (a :: as).isPrefixOf l = false := by
  cases l with
  | nil => rfl
  | cons b bs => simp [List.isPrefixOf_cons₂, h b rfl]

/-- The head of `w ++ (n ++ t)` is a whitespace character of `w` or a
plain character of `n`. -/
theorem body_head {w n t : Str} (hw : ∀ c ∈ w, pySpace c = true) (hn0 : n ≠ [])
    (hn : ∀ c ∈ n, plainChar c = true) :
    ∀ c, (w ++ (n ++ t)).head? = some c → pySpace c = true ∨ plainChar c = true := by
  intro c hc
  cases w with
  | cons a w =>
    simp only [List.cons_append, List.head?_cons, Option.some.injEq] at hc
    subst hc
    exact Or.inl (hw a (by simp))
  | nil =>
    simp only [List.nil_append] at hc
    cases n with
    | nil => exact absurd rfl hn0
    | cons a nn =>
      simp only [List.cons_append, List.head?_cons, Option.some.injEq] at hc
      subst hc
      exact Or.inr (hn a (by simp))

/-- `dropWhile` keeps `w ++ (n ++ t)` whole when `w` and `n` fail the
predicate. -/
theorem lstrip_body {f : Char → Bool} {w n t : Str}
    (hw : ∀ c ∈ w, f c = false) (hn0 : n ≠ []) (hn : ∀ c ∈ n, f c = false) :
    (w ++ (n ++ t)).dropWhile f = w ++ (n ++ t) := by
  apply dropWhile_stop
  intro c hc
  cases w with
  | cons a w =>
    simp only [List.cons_append, List.head?_cons, Option.some.injEq] at hc
    subst hc
    exact hw a (by simp)
  | nil =>
    simp only [List.nil_append] at hc
    cases n with
    | nil => exact absurd rfl hn0
    | cons a nn =>
      simp only [List.cons_append, List.head?_cons, Option.some.injEq] at hc
      subst hc
      exact hn a (by simp)

/-- Right-stripping a concatenation whose left part ends in a character
failing the predicate only strips the right part. -/
theorem rstrip_append {f : Char → Bool} {A t : Str}
    (hA : ∀ c, A.getLast? = some c → f c = false) :
    rstripWith f (A ++ t) = A ++ rstripWith f t := by
  unfold rstripWith
  rw [List.reverse_append, List.dropWhile_append]
  by_cases h : (t.reverse.dropWhile f).isEmpty
  · rw [if_pos h]
    simp only [List.isEmpty_eq_true] at h
    have h2 : A.reverse.dropWhile f = A.reverse := by
      apply dropWhile_stop
      intro c hc
      rw [List.head?_reverse] at hc
      exact hA c hc
    rw [h2, List.reverse_reverse, h]
    simp
  · rw [if_neg h]
    rw [List.reverse_append, List.reverse_reverse]

/-- Right-stripping `w ++ (n ++ t)` with a predicate failing on `n` only
strips inside `t`. -/
theorem rstrip_body {f : Char → Bool} {w n t : Str} (hn0 : n ≠ [])
    (hn : ∀ c ∈ n, f c = false) :
    rstripWith f (w ++ (n ++ t)) = w ++ (n ++ rstripWith f t) := by
  have hA : ∀ c, (w ++ n).getLast? = some c → f c = false := by
    intro c hc
    rw [List.getLast?_append] at hc
    cases hlast : n.getLast? with
    | none =>
      rw [List.getLast?_eq_none_iff] at hlast
      exact absurd hlast hn0
    | some d =>
      rw [hlast] at hc
      simp only [Option.or_some, Option.some.injEq] at hc
      subst hc
      exact hn d (List.mem_of_getLast?_eq_some hlast)
  have h := rstrip_append (f := f) (A := w ++ n) (t := t) hA
  simpa [List.append_assoc] using h

/-- Right-stripping preserves a well-formed tail shape. -/
theorem tailOkB_rstrip {f : Char → Bool} {t : Str} (h : tailOkB t = true) :
    tailOkB (rstripWith f t) = true := by
  have hpre : rstripWith f t <+: t := by
    rw [rstripWith_eq_rdropWhile]
    exact List.rdropWhile_prefix f t
  cases hr : rstripWith f t with
  | nil => rfl
  | cons c r =>
    rw [hr] at hpre
    obtain ⟨s, hs⟩ := hpre
    rw [← hs] at h
    simpa [tailOkB] using h

/-- The first whitespace-delimited token of `n ++ t` is `n` when `n` is a
plain name and `t` is a well-formed tail. -/
theorem splitHead_name {n t : Str} (hn0 : n ≠ []) (hn : ∀ c ∈ n, plainChar c = true)
    (ht : tailOkB t = true) : splitHead (n ++ t) = some n := by
  have hnsp : ∀ c ∈ n, pySpace c = false := fun c hc => plainChar_not_space (hn c hc)
  have hdrop : (n ++ t).dropWhile pySpace = n ++ t :=
    lstrip_body (w := []) (by simp) hn0 hnsp
  unfold splitHead
  simp only [hdrop]
  have hne : (n ++ t).isEmpty = false := by
    simp only [List.isEmpty_eq_false, ne_eq, List.append_eq_nil, not_and]
    intro hcon
    exact absurd hcon hn0
  rw [hne]
  simp only [Bool.false_eq_true, if_false]
  have htake : (n ++ t).takeWhile (fun c => !pySpace c) = n ++ t.takeWhile (fun c => !pySpace c) :=
    List.takeWhile_append_of_pos (by intro a ha; simp [hnsp a ha])
  rw [htake]
  cases t with
  | nil => simp
  | cons c r =>
    have hct : pySpace c = true := by simpa [tailOkB] using ht
    rw [List.takeWhile_cons_of_neg (by simp [hct])]
    simp

/-- Left-stripping `w ++ t` with a predicate true on all of `w` reduces to
stripping `t`; specialization of the core lemma used below. -/
theorem stripWs_body {w n t : Str} (hw : ∀ c ∈ w, pySpace c = true) (hn0 : n ≠ [])
    (hn : ∀ c ∈ n, plainChar c = true) :
    stripWs (w ++ (n ++ t)) = n ++ rstripWith pySpace t := by
  have hnsp : ∀ c ∈ n, pySpace c = false := fun c hc => plainChar_not_space (hn c hc)
  unfold stripWs stripWith lstripWith
  rw [List.dropWhile_append_of_pos hw]
  have h2 : (n ++ t).dropWhile pySpace = n ++ t := lstrip_body (w := []) (by simp) hn0 hnsp
  rw [h2]
  exact rstrip_body (w := []) hn0 hnsp

/-- A prefix character set is false on whitespace and on plain
characters. -/
theorem prefix_set_facts {S : Str} (hS : ∀ x ∈ S, specialChars.contains x = true) :
    (∀ c, pySpace c = true → S.contains c = false) ∧
    (∀ c, plainChar c = true → S.contains c = false) :=
  ⟨fun _ hc => contains_false_of_not_special hS (pySpace_not_special hc),
   fun _ hc => contains_false_of_not_special hS (plainChar_not_special hc)⟩

/-- One `str.strip(chars)` round over a whitespace-name-tail body: the
body's left end survives and only the tail is right-stripped. -/
theorem stripChars_body {S w n t : Str} (hS : ∀ x ∈ S, specialChars.contains x = true)
    (hw : ∀ c ∈ w, pySpace c = true) (hn0 : n ≠ []) (hn : ∀ c ∈ n, plainChar c = true) :
    stripChars S (w ++ (n ++ t)) = w ++ (n ++ rstripWith (fun c => S.contains c) t) := by
  obtain ⟨hsp, hpl⟩ := prefix_set_facts hS
  unfold stripChars stripWith lstripWith
  rw [lstrip_body (fun c hc => hsp c (hw c hc)) hn0 (fun c hc => hpl c (hn c hc))]
  exact rstrip_body hn0 (fun c hc => hpl c (hn c hc))

/-- One `str.strip(chars)` round for a single-character prefix standing at
the head of the declaration: the prefix character is consumed. -/
theorem stripChars_single_cons {b : Char} {w n t : Str}
    (hS : ∀ x ∈ ([b] : Str), specialChars.contains x = true)
    (hw : ∀ c ∈ w, pySpace c = true) (hn0 : n ≠ []) (hn : ∀ c ∈ n, plainChar c = true) :
    stripChars [b] (b :: (w ++ (n ++ t)))
      = w ++ (n ++ rstripWith (fun c => ([b] : Str).contains c) t) := by
  obtain ⟨hsp, hpl⟩ := prefix_set_facts hS
  unfold stripChars stripWith lstripWith
  rw [List.dropWhile_cons_of_pos (by simp)]
  rw [lstrip_body (fun c hc => hsp c (hw c hc)) hn0 (fun c hc => hpl c (hn c hc))]
  exact rstrip_body hn0 (fun c hc => hpl c (hn c hc))

/-- The full strip-and-tokenize pipeline for a declaration led by a
single-character prefix `b` (category prefixes `[b]` then `['(', b, ')']`,
as in the source's table). -/
theorem stripPair_single {b : Char} {w n t : Str}
    (hb : specialChars.contains b = true)
    (hw : ∀ c ∈ w, pySpace c = true) (hn0 : n ≠ []) (hn : ∀ c ∈ n, plainChar c = true)
    (ht : tailOkB t = true) :
    splitHead (stripWs (stripEachAsCharSet [[b], ['(', b, ')']] (b :: (w ++ (n ++ t)))))
      = some n := by
  have hS1 : ∀ x ∈ ([b] : Str), specialChars.contains x = true := by
    intro x hx
    simp only [List.mem_singleton] at hx
    subst hx
    exact hb
  have hS2 : ∀ x ∈ (['(', b, ')'] : Str), specialChars.contains x = true := by
    intro x hx
    simp only [List.mem_cons, List.not_mem_nil, or_false] at hx
    rcases hx with rfl | rfl | rfl
    · rfl
    · exact hb
    · rfl
  unfold stripEachAsCharSet
  simp only [List.foldl_cons, List.foldl_nil]
  rw [stripChars_single_cons hS1 hw hn0 hn]
  rw [stripChars_body hS2 hw hn0 hn]
  rw [stripWs_body hw hn0 hn]
  exact splitHead_name hn0 hn (tailOkB_rstrip (tailOkB_rstrip (tailOkB_rstrip ht)))

/-- The full strip-and-tokenize pipeline for a declaration led by a
parenthesized prefix `(b)`. -/
theorem stripPair_paren {b : Char} {w n t : Str}
    (hb : specialChars.contains b = true)
    (hpb : ('(' == b) = false)
    (hw : ∀ c ∈ w, pySpace c = true) (hn0 : n ≠ []) (hn : ∀ c ∈ n, plainChar c = true)
    (ht : tailOkB t = true) :
    splitHead (stripWs (stripEachAsCharSet [[b], ['(', b, ')']]
      ('(' :: b :: ')' :: (w ++ (n ++ t))))) = some n := by
  have hS1 : ∀ x ∈ ([b] : Str), specialChars.contains x = true := by
    intro x hx
    simp only [List.mem_singleton] at hx
    subst hx
    exact hb
  have hS2 : ∀ x ∈ (['(', b, ')'] : Str), specialChars.contains x = true := by
    intro x hx
    simp only [List.mem_cons, List.not_mem_nil, or_false] at hx
    rcases hx with rfl | rfl | rfl
    · rfl
    · exact hb
    · rfl
  obtain ⟨hsp1, hpl1⟩ := prefix_set_facts hS1
  unfold stripEachAsCharSet
  simp only [List.foldl_cons, List.foldl_nil]
  have r1 : stripChars [b] ('(' :: b :: ')' :: (w ++ (n ++ t)))
      = '(' :: b :: ')' :: (w ++ (n ++ rstripWith (fun c => ([b] : Str).contains c) t)) := by
    unfold stripChars stripWith lstripWith
    rw [dropWhile_stop (fun c hc => by
      simp only [List.head?_cons, Option.some.injEq] at hc
      subst hc
      simpa using hpb)]
    exact rstrip_body (w := '(' :: b :: ')' :: w) hn0 (fun c hc => hpl1 c (hn c hc))
  rw [r1]
  have r2 : stripChars ['(', b, ')']
      ('(' :: b :: ')' :: (w ++ (n ++ rstripWith (fun c => ([b] : Str).contains c) t)))
      = w ++ (n ++ rstripWith (fun c => (['(', b, ')'] : Str).contains c)
          (rstripWith (fun c => ([b] : Str).contains c) t)) := by
    obtain ⟨hsp2, hpl2⟩ := prefix_set_facts hS2
    unfold stripChars stripWith lstripWith
    rw [List.dropWhile_cons_of_pos (by simp), List.dropWhile_cons_of_pos (by simp),
      List.dropWhile_cons_of_pos (by simp)]
    rw [lstrip_body (fun c hc => hsp2 c (hw c hc)) hn0 (fun c hc => hpl2 c (hn c hc))]
    exact rstrip_body hn0 (fun c hc => hpl2 c (hn c hc))
  rw [r2]
  rw [stripWs_body hw hn0 hn]
  exact splitHead_name hn0 hn (tailOkB_rstrip (tailOkB_rstrip (tailOkB_rstrip ht)))

/-- Declarations that begin with no registered prefix fall into the
default `require` category with the first token as name. -/
theorem parse_default {w n t : Str} (hw : ∀ c ∈ w, pySpace c = true) (hn0 : n ≠ [])
    (hn : ∀ c ∈ n, plainChar c = true) (ht : tailOkB t = true) :
    parse_dependency (w ++ (n ++ t)) = some ("require", n) := by
  have hhead := body_head hw hn0 hn (t := t)
  have hb : ∀ (a : Char), specialChars.contains a = true → ∀ as : Str,
      (a :: as).isPrefixOf (w ++ (n ++ t)) = false := by
    intro a ha as
    apply isPrefixOf_head_false
    intro c hc
    rcases hhead c hc with hsp | hpl
    · exact special_beq_false ha (pySpace_not_special hsp)
    · exact special_beq_false ha (plainChar_not_special hpl)
  have hfalse : startsWithAny allPrefixStrings (w ++ (n ++ t)) = false := by
    have h1 : (str "?").isPrefixOf (w ++ (n ++ t)) = false := hb '?' rfl []
    have h2 : (str "(?)").isPrefixOf (w ++ (n ++ t)) = false := hb '(' rfl (str "?)")
    have h3 : (str "!").isPrefixOf (w ++ (n ++ t)) = false := hb '!' rfl []
    have h4 : (str "(!)").isPrefixOf (w ++ (n ++ t)) = false := hb '(' rfl (str "!)")
    have h5 : (str "~").isPrefixOf (w ++ (n ++ t)) = false := hb '~' rfl []
    have h6 : (str "(~)").isPrefixOf (w ++ (n ++ t)) = false := hb '(' rfl (str "~)")
    show (allPrefixStrings.any fun p => p.isPrefixOf (w ++ (n ++ t))) = false
    rw [show allPrefixStrings
        = [str "?", str "(?)", str "!", str "(!)", str "~", str "(~)"] from rfl]
    simp [h1, h2, h3, h4, h5, h6]
  have hred : parse_dependency (w ++ (n ++ t))
      = (splitHead (stripWs (w ++ (n ++ t)))).map (fun m => (("require" : String), m)) := by
    unfold parse_dependency
    rw [hfalse]
    rfl
  rw [hred, stripWs_body hw hn0 hn, splitHead_name hn0 hn (tailOkB_rstrip ht)]
  rfl

/-- `dropWhile` is the identity when the predicate fails everywhere. -/
theorem dropWhile_all_false {f : Char → Bool} {l : Str} (h : ∀ c ∈ l, f c = false) :
    l.dropWhile f = l :=
  dropWhile_stop (fun c hc => by
    rcases List.head?_eq_some_iff.mp hc with ⟨ys, rfl⟩
    exact h c (by simp))

/-- Right-strip is the identity when the predicate fails everywhere. -/
theorem rstripWith_all_false {f : Char → Bool} {l : Str} (h : ∀ c ∈ l, f c = false) :
    rstripWith f l = l := by
  unfold rstripWith
  rw [dropWhile_all_false (fun c hc => h c (List.mem_reverse.mp hc))]
  exact List.reverse_reverse l

/-- Right-strip is the identity when the predicate fails on the last
element. -/
theorem rstripWith_stop {f : Char → Bool} {l : Str}
    (h : ∀ c, l.getLast? = some c → f c = false) : rstripWith f l = l := by
  unfold rstripWith
  rw [dropWhile_stop (fun c hc => by rw [List.head?_reverse] at hc; exact h c hc)]
  exact List.reverse_reverse l

/-- A prefix-character strip leaves an all-whitespace string alone. -/
theorem stripChars_space_only {S w : Str} (hS : ∀ x ∈ S, specialChars.contains x = true)
    (hw : ∀ c ∈ w, pySpace c = true) : stripChars S w = w := by
  have hf : ∀ c ∈ w, S.contains c = false :=
    fun c hc => (prefix_set_facts hS).1 c (hw c hc)
  unfold stripChars stripWith lstripWith
  rw [dropWhile_all_false hf]
  exact rstripWith_all_false hf

/-- `str.strip()` of an all-whitespace string is empty. -/
theorem stripWs_space_only {w : Str} (hw : ∀ c ∈ w, pySpace c = true) : stripWs w = [] := by
  unfold stripWs stripWith lstripWith
  rw [List.dropWhile_eq_nil_iff.mpr hw]
  rfl

/-- Strip pipeline of a single-character prefix followed only by
whitespace: no token remains. -/
theorem stripPair_single_spaces {b : Char} {w : Str} (hb : specialChars.contains b = true)
    (hw : ∀ c ∈ w, pySpace c = true) :
    splitHead (stripWs (stripEachAsCharSet [[b], ['(', b, ')']] (b :: w))) = none := by
  have hS1 : ∀ x ∈ ([b] : Str), specialChars.contains x = true := by
    intro x hx
    simp only [List.mem_singleton] at hx
    subst hx
    exact hb
  have hS2 : ∀ x ∈ (['(', b, ')'] : Str), specialChars.contains x = true := by
    intro x hx
    simp only [List.mem_cons, List.not_mem_nil, or_false] at hx
    rcases hx with rfl | rfl | rfl
    · rfl
    · exact hb
    · rfl
  have hf1 : ∀ c ∈ w, ([b] : Str).contains c = false :=
    fun c hc => (prefix_set_facts hS1).1 c (hw c hc)
  unfold stripEachAsCharSet
  simp only [List.foldl_cons, List.foldl_nil]
  have r1 : stripChars [b] (b :: w) = w := by
    unfold stripChars stripWith lstripWith
    rw [List.dropWhile_cons_of_pos (by simp), dropWhile_all_false hf1]
    exact rstripWith_all_false hf1
  rw [r1, stripChars_space_only hS2 hw, stripWs_space_only hw]
  rfl

/-- Strip pipeline of a parenthesized prefix followed only by whitespace:
no token remains. -/
theorem stripPair_paren_spaces {b : Char} {w : Str} (hb : specialChars.contains b = true)
    (hpb : ('(' == b) = false) (hrb : ((')' : Char) == b) = false)
    (hw : ∀ c ∈ w, pySpace c = true) :
    splitHead (stripWs (stripEachAsCharSet [[b], ['(', b, ')']] ('(' :: b :: ')' :: w)))
      = none := by
  have hS2 : ∀ x ∈ (['(', b, ')'] : Str), specialChars.contains x = true := by
    intro x hx
    simp only [List.mem_cons, List.not_mem_nil, or_false] at hx
    rcases hx with rfl | rfl | rfl
    · rfl
    · exact hb
    · rfl
  have hf2 : ∀ c ∈ w, (['(', b, ')'] : Str).contains c = false :=
    fun c hc => (prefix_set_facts hS2).1 c (hw c hc)
  unfold stripEachAsCharSet
  simp only [List.foldl_cons, List.foldl_nil]
  have r1 : stripChars [b] ('(' :: b :: ')' :: w) = '(' :: b :: ')' :: w := by
    unfold stripChars stripWith lstripWith
    rw [dropWhile_stop (fun c hc => by
      simp only [List.head?_cons, Option.some.injEq] at hc
      subst hc
      simpa using hpb)]
    apply rstripWith_stop
    intro c hc
    rw [show ('(' :: b :: ')' :: w) = ['(', b, ')'] ++ w from rfl, List.getLast?_append] at hc
    cases hw' : w.getLast? with
    | none =>
      rw [hw', show (['(', b, ')'] : Str).getLast? = some (')' : Char) from rfl] at hc
      simp only [Option.none_or, Option.some.injEq] at hc
      subst hc
      simpa using hrb
    | some d =>
      rw [hw'] at hc
      simp only [Option.or_some, Option.some.injEq] at hc
      subst hc
      have hd : d ∈ w := List.mem_of_getLast?_eq_some hw'
      exact (prefix_set_facts (by
        intro x hx
        simp only [List.mem_singleton] at hx
        subst hx
        exact hb)).1 d (hw d hd)
  rw [r1]
  have r2 : stripChars ['(', b, ')'] ('(' :: b :: ')' :: w) = w := by
    unfold stripChars stripWith lstripWith
    rw [List.dropWhile_cons_of_pos (by simp), List.dropWhile_cons_of_pos (by simp),
      List.dropWhile_cons_of_pos (by simp), dropWhile_all_false hf2]
    exact rstripWith_all_false hf2
  rw [r2, stripWs_space_only hw]
  rfl

/-! ## Claim theorems -/

/-- C1: the spec says `checkUpdate` returns `None` when the installed
version equals the latest remote version; in the source the assignment
`self._has_new_version = None` under that comparison is immediately
overwritten by `self._has_new_version = releases[-1]`, so `update()`
returns (and caches) the latest release descriptor even then.  Here the
installed version is `1.0`, the latest remote version is `1.0`, and
`update` returns the release, not `None`. -/
theorem update_returns_release_when_versions_equal :
    versionOf (str "m") [⟨str "m_1.0.zip", []⟩]
      ⟨str "2.0", [(str "m", ⟨200, [⟨str "1.0", str "dl", str "m_1.0.zip", []⟩]⟩)]⟩
      = some (str "1.0") ∧
    (lookupRemote ⟨str "2.0", [(str "m", ⟨200, [⟨str "1.0", str "dl", str "m_1.0.zip", []⟩]⟩)]⟩
      (str "m")).releases.getLast?.map Release.version = some (str "1.0") ∧
    update (str "m") none
      ⟨str "2.0", [(str "m", ⟨200, [⟨str "1.0", str "dl", str "m_1.0.zip", []⟩]⟩)]⟩
      [⟨str "m_1.0.zip", []⟩] []
      = .ok (some ⟨str "1.0", str "dl", str "m_1.0.zip", []⟩,
             some ⟨str "1.0", str "dl", str "m_1.0.zip", []⟩, []) := by
  decide

/-- C2: resolution is not idempotent.  `Mod.dependencies` returns the
cache only when *all four* category lists are non-empty; for a mod whose
manifest declares a single hard dependency the optional/conflict/parent
lists stay empty, so a second access re-reads the manifest and appends the
entries again, duplicating the `require` category. -/
theorem dependencies_not_idempotent (env : Env) :
    dependenciesProp (str "m") emptyDeps [⟨str "m_1.0.zip", [str "alpha"]⟩] env
      = some ⟨[str "alpha"], [], [], []⟩ ∧
    dependenciesProp (str "m") ⟨[str "alpha"], [], [], []⟩
      [⟨str "m_1.0.zip", [str "alpha"]⟩] env
      = some ⟨[str "alpha", str "alpha"], [], [], []⟩ ∧
    (⟨[str "alpha", str "alpha"], [], [], []⟩ : Deps) ≠ ⟨[str "alpha"], [], [], []⟩ :=
  ⟨rfl, rfl, by decide⟩

/-- C3: an already-latest upgrade is not a no-op on the store.  Because
`update()` reports the latest release even when the installed version
equals it (see `update_returns_release_when_versions_equal`), `upgrade`
proceeds to remove and re-download the mod; the removal cascades to a
dependent, which is never reinstalled.  Store: `p` at `1.0` (remote latest
also `1.0`) and `q` requiring `p`; after `upgrade p` the store has lost
`q`, and the log shows the remove/remove/install sequence instead of the
"already latest" event. -/
theorem upgrade_when_already_latest_mutates_store :
    versionOf (str "p") [⟨str "p_1.0.zip", []⟩, ⟨str "q_1.0.zip", [str "p"]⟩]
      ⟨str "1.0", [(str "p", ⟨200, [⟨str "1.0", str "u", str "p_1.0.zip", []⟩]⟩),
                   (str "q", ⟨200, [⟨str "1.0", str "u", str "q_1.0.zip", [str "p"]⟩]⟩)]⟩
      = some (str "1.0") ∧
    upgrade 5 (str "p") none
      ⟨str "1.0", [(str "p", ⟨200, [⟨str "1.0", str "u", str "p_1.0.zip", []⟩]⟩),
                   (str "q", ⟨200, [⟨str "1.0", str "u", str "q_1.0.zip", [str "p"]⟩]⟩)]⟩
      [⟨str "p_1.0.zip", []⟩, ⟨str "q_1.0.zip", [str "p"]⟩] []
      = .ok ([⟨str "p_1.0.zip", []⟩],
             [.infoRemoved (str "p"), .infoRemoved (str "q"),
              .infoInstalled (str "p") (str "1.0"),
              .infoUpgraded (str "p") (some (str "1.0")) (str "1.0")]) ∧
    ([⟨str "p_1.0.zip", []⟩] : List ArchiveFile)
      ≠ [⟨str "p_1.0.zip", []⟩, ⟨str "q_1.0.zip", [str "p"]⟩] := by
  refine ⟨by decide, by decide, by decide⟩

/-- Reduction of `parse_dependency` on a declaration that matches a
prefix: the classifier returns the found category with the stripped
token. -/
theorem parse_dependency_prefixed (raw : Str) (cat : String) (ps : List Str)
    (h1 : startsWithAny allPrefixStrings raw = true)
    (h2 : findMatchingCategory categoriesTable raw = some (cat, ps)) :
    parse_dependency raw
      = (splitHead (stripWs (stripEachAsCharSet ps raw))).map (fun m => (cat, m)) := by
  unfold parse_dependency
  rw [h1, h2]
  rfl

/-- Prefix-matching facts for a declaration starting with `?`. -/
theorem prefixFacts_q (x : Str) :
    startsWithAny allPrefixStrings ('?' :: x) = true ∧
    findMatchingCategory categoriesTable ('?' :: x)
      = some ("optional", ([['?'], ['(', '?', ')']] : List Str)) := by
  constructor <;>
    simp [startsWithAny, findMatchingCategory, allPrefixStrings, categoriesTable, str,
      List.isPrefixOf]

/-- Prefix-matching facts for a declaration starting with `(?)`. -/
theorem prefixFacts_pq (x : Str) :
    startsWithAny allPrefixStrings ('(' :: '?' :: ')' :: x) = true ∧
    findMatchingCategory categoriesTable ('(' :: '?' :: ')' :: x)
      = some ("optional", ([['?'], ['(', '?', ')']] : List Str)) := by
  constructor <;>
    simp [startsWithAny, findMatchingCategory, allPrefixStrings, categoriesTable, str,
      List.isPrefixOf]

/-- Prefix-matching facts for a declaration starting with `!`. -/
theorem prefixFacts_bang (x : Str) :
    startsWithAny allPrefixStrings ('!' :: x) = true ∧
    findMatchingCategory categoriesTable ('!' :: x)
      = some ("conflict", ([['!'], ['(', '!', ')']] : List Str)) := by
  constructor <;>
    simp [startsWithAny, findMatchingCategory, allPrefixStrings, categoriesTable, str,
      List.isPrefixOf]

/-- Prefix-matching facts for a declaration starting with `(!)`. -/
theorem prefixFacts_pbang (x : Str) :
    startsWithAny allPrefixStrings ('(' :: '!' :: ')' :: x) = true ∧
    findMatchingCategory categoriesTable ('(' :: '!' :: ')' :: x)
      = some ("conflict", ([['!'], ['(', '!', ')']] : List Str)) := by
  constructor <;>
    simp [startsWithAny, findMatchingCategory, allPrefixStrings, categoriesTable, str,
      List.isPrefixOf]

/-- Prefix-matching facts for a declaration starting with `~`. -/
theorem prefixFacts_tilde (x : Str) :
    startsWithAny allPrefixStrings ('~' :: x) = true ∧
    findMatchingCategory categoriesTable ('~' :: x)
      = some ("parent", ([['~'], ['(', '~', ')']] : List Str)) := by
  constructor <;>
    simp [startsWithAny, findMatchingCategory, allPrefixStrings, categoriesTable, str,
      List.isPrefixOf]

/-- Prefix-matching facts for a declaration starting with `(~)`. -/
theorem prefixFacts_ptilde (x : Str) :
    startsWithAny allPrefixStrings ('(' :: '~' :: ')' :: x) = true ∧
    findMatchingCategory categoriesTable ('(' :: '~' :: ')' :: x)
      = some ("parent", ([['~'], ['(', '~', ')']] : List Str)) := by
  constructor <;>
    simp [startsWithAny, findMatchingCategory, allPrefixStrings, categoriesTable, str,
      List.isPrefixOf]

/-! ## Lemmas for the removal-cascade theorem -/

/-- A bare plain name classifies as a hard requirement. -/
theorem parse_plain {n : Str} (hn0 : n ≠ []) (hn : ∀ c ∈ n, plainChar c = true) :
    parse_dependency n = some ("require", n) := by
  have h := parse_default (w := []) (t := []) (by simp) hn0 hn rfl
  simpa using h

/-- A `"? name"` declaration classifies as optional with exactly the
name. -/
theorem parse_opt_space {n : Str} (hn0 : n ≠ []) (hn : ∀ c ∈ n, plainChar c = true) :
    parse_dependency ('?' :: ' ' :: n) = some ("optional", n) := by
  have h2 := stripPair_single (b := '?') (w := [' ']) (t := []) rfl (by decide) hn0 hn rfl
  have h1 := parse_dependency_prefixed ('?' :: ([' '] ++ (n ++ []))) "optional"
    [['?'], ['(', '?', ')']] (prefixFacts_q _).1 (prefixFacts_q _).2
  rw [h2] at h1
  simp only [List.singleton_append, List.append_nil] at h1
  simpa using h1

/-- `zipStem?` of a well-formed archive file name `{name}_1.0.zip`. -/
theorem zipStem_std (x : Str) : zipStem? (x ++ str "_1.0.zip") = some (x ++ str "_1.0") := by
  unfold zipStem?
  have hrev : (x ++ str "_1.0.zip").reverse = str "piz.0.1_" ++ x.reverse := by
    rw [List.reverse_append, show (str "_1.0.zip").reverse = str "piz.0.1_" from rfl]
  have hsuf : zipExt.isSuffixOf (x ++ str "_1.0.zip") = true := by
    unfold List.isSuffixOf
    rw [hrev, show (zipExt.reverse : Str) = str "piz." from rfl]
    simp [str, List.isPrefixOf]
  rw [hsuf]
  have hdrop : dropLastN 4 (x ++ str "_1.0.zip") = x ++ str "_1.0" := by
    unfold dropLastN
    rw [hrev, show (str "piz.0.1_" ++ x.reverse).drop 4 = str "0.1_" ++ x.reverse from rfl]
    rw [List.reverse_append, List.reverse_reverse,
      show (str "0.1_").reverse = str "_1.0" from rfl]
  rw [hdrop]
  rfl

/-- `stem.rsplit("_", 1)[0]` of a well-formed stem `{name}_1.0`: the
version part holds the only trailing underscore, so the name is returned
whole (whatever characters it contains). -/
theorem stemName_std (x : Str) : stemName (x ++ str "_1.0") = x := by
  unfold stemName
  rw [List.reverse_append, show ((str "_1.0").reverse : Str) = '0' :: '.' :: '1' :: ['_']
    from rfl]
  simp only [List.cons_append, List.nil_append]
  rw [List.dropWhile_cons_of_pos (by decide), List.dropWhile_cons_of_pos (by decide),
    List.dropWhile_cons_of_pos (by decide), List.dropWhile_cons_of_neg (by decide)]
  simp

/-- `Except.ok` is left identity for bind. -/
theorem except_ok_bind {α β : Type} (a : α) (k : α → Except Err β) :
    (Except.ok a : Except Err α) >>= k = k a := rfl


/-- C4 (counterexample): the claim says the returned name is exactly the
first whitespace-delimited token after the prefix and surrounding
whitespace are removed, which for `"!mod!"` would be `"mod!"`.  The code
strips the prefix as a character *set* from both ends (`str.strip`), so it
returns `"mod"`. -/
theorem classifier_charset_strip_counterexample :
    parse_dependency (str "!mod!") ≠ some ("conflict", str "mod!") ∧
    parse_dependency (str "!mod!") = some ("conflict", str "mod") := by
  decide

/-- C4 (amended): for every declaration `p ++ w ++ n ++ t` with `p` a
registered prefix, `w` whitespace, `n` a non-empty token containing no
whitespace and no prefix characters, and `t` empty or whitespace-led, the
classifier returns the prefix's category and exactly `n`; declarations
beginning with no prefix yield `("require", first token)` under the same
shape.  (Outside this shape the name is produced by Python
`str.strip(chars)` character-set semantics, see the counterexample.) -/
theorem classifier_on_wellformed_declarations :
    (∀ cat p, (cat, p) ∈ prefixTable → ∀ w n t,
      (∀ c ∈ w, pySpace c = true) → validNameB n = true → tailOkB t = true →
      parse_dependency (p ++ (w ++ (n ++ t))) = some (cat, n)) ∧
    (∀ w n t, (∀ c ∈ w, pySpace c = true) → validNameB n = true → tailOkB t = true →
      parse_dependency (w ++ (n ++ t)) = some ("require", n)) := by
  have hname : ∀ m : Str, validNameB m = true → m ≠ [] ∧ ∀ c ∈ m, plainChar c = true := by
    intro m h
    constructor
    · intro he
      subst he
      simp [validNameB] at h
    · have h2 := h
      simp only [validNameB, Bool.and_eq_true, List.all_eq_true] at h2
      exact h2.2
  constructor
  · intro cat p hmem w n t hw hvn ht
    obtain ⟨hn0, hn⟩ := hname n hvn
    simp only [prefixTable, List.mem_cons, List.not_mem_nil, or_false, Prod.mk.injEq] at hmem
    rcases hmem with ⟨rfl, rfl⟩ | ⟨rfl, rfl⟩ | ⟨rfl, rfl⟩ | ⟨rfl, rfl⟩ | ⟨rfl, rfl⟩ | ⟨rfl, rfl⟩
    · rw [show (str "?" : Str) ++ (w ++ (n ++ t)) = '?' :: (w ++ (n ++ t)) from rfl,
        parse_dependency_prefixed ('?' :: (w ++ (n ++ t))) "optional"
          [['?'], ['(', '?', ')']] (prefixFacts_q _).1 (prefixFacts_q _).2,
        stripPair_single (b := '?') rfl hw hn0 hn ht]
      rfl
    · rw [show (str "(?)" : Str) ++ (w ++ (n ++ t)) = '(' :: '?' :: ')' :: (w ++ (n ++ t))
          from rfl,
        parse_dependency_prefixed ('(' :: '?' :: ')' :: (w ++ (n ++ t))) "optional"
          [['?'], ['(', '?', ')']] (prefixFacts_pq _).1 (prefixFacts_pq _).2,
        stripPair_paren (b := '?') rfl rfl hw hn0 hn ht]
      rfl
    · rw [show (str "!" : Str) ++ (w ++ (n ++ t)) = '!' :: (w ++ (n ++ t)) from rfl,
        parse_dependency_prefixed ('!' :: (w ++ (n ++ t))) "conflict"
          [['!'], ['(', '!', ')']] (prefixFacts_bang _).1 (prefixFacts_bang _).2,
        stripPair_single (b := '!') rfl hw hn0 hn ht]
      rfl
    · rw [show (str "(!)" : Str) ++ (w ++ (n ++ t)) = '(' :: '!' :: ')' :: (w ++ (n ++ t))
          from rfl,
        parse_dependency_prefixed ('(' :: '!' :: ')' :: (w ++ (n ++ t))) "conflict"
          [['!'], ['(', '!', ')']] (prefixFacts_pbang _).1 (prefixFacts_pbang _).2,
        stripPair_paren (b := '!') rfl rfl hw hn0 hn ht]
      rfl
    · rw [show (str "~" : Str) ++ (w ++ (n ++ t)) = '~' :: (w ++ (n ++ t)) from rfl,
        parse_dependency_prefixed ('~' :: (w ++ (n ++ t))) "parent"
          [['~'], ['(', '~', ')']] (prefixFacts_tilde _).1 (prefixFacts_tilde _).2,
        stripPair_single (b := '~') rfl hw hn0 hn ht]
      rfl
    · rw [show (str "(~)" : Str) ++ (w ++ (n ++ t)) = '(' :: '~' :: ')' :: (w ++ (n ++ t))
          from rfl,
        parse_dependency_prefixed ('(' :: '~' :: ')' :: (w ++ (n ++ t))) "parent"
          [['~'], ['(', '~', ')']] (prefixFacts_ptilde _).1 (prefixFacts_ptilde _).2,
        stripPair_paren (b := '~') rfl rfl hw hn0 hn ht]
      rfl
  · intro w n t hw hvn ht
    obtain ⟨hn0, hn⟩ := hname n hvn
    exact parse_default hw hn0 hn ht

/-- Witness for `classifier_on_wellformed_declarations`: the spec's own
example `"? curses >= 1.0"` classifies as `("optional", "curses")`. -/
theorem classifier_on_wellformed_declarations_witness :
    parse_dependency (str "? curses >= 1.0") = some ("optional", str "curses") := by
  have h := classifier_on_wellformed_declarations.1 "optional" (str "?") (by decide)
    [' '] (str "curses") (str " >= 1.0") (by decide) (by decide) (by decide)
  rw [show (str "? curses >= 1.0" : Str)
      = str "?" ++ ([' '] ++ (str "curses" ++ str " >= 1.0")) from rfl]
  exact h

/-- C5 (counterexample): the claim says a declaration consisting only of a
prefix and whitespace fails classification; but a prefix *preceded* by
whitespace matches no prefix (`startswith` checks the raw string), falls
to the default category, and silently classifies as `("require", "?")`. -/
theorem classification_silent_pass_counterexample :
    parse_dependency (str " ?") ≠ none ∧
    parse_dependency (str " ?") = some ("require", str "?") := by
  decide

/-- C5 (amended): an empty or all-whitespace declaration, and a
declaration that is a registered prefix followed only by whitespace, fail
classification (no token to extract); a prefix preceded by whitespace
instead silently classifies into the default category. -/
theorem prefix_only_declarations_fail :
    (∀ w : Str, (∀ c ∈ w, pySpace c = true) → parse_dependency w = none) ∧
    (∀ p w : Str, p ∈ allPrefixStrings → (∀ c ∈ w, pySpace c = true) →
      parse_dependency (p ++ w) = none) := by
  constructor
  · intro w hw
    have hb : ∀ (a : Char), specialChars.contains a = true → ∀ as : Str,
        (a :: as).isPrefixOf w = false := by
      intro a ha as
      apply isPrefixOf_head_false
      intro c hc
      have hcw : c ∈ w := by
        rcases List.head?_eq_some_iff.mp hc with ⟨ys, rfl⟩
        simp
      exact special_beq_false ha (pySpace_not_special (hw c hcw))
    have hfalse : startsWithAny allPrefixStrings w = false := by
      have h1 : (str "?").isPrefixOf w = false := hb '?' rfl []
      have h2 : (str "(?)").isPrefixOf w = false := hb '(' rfl (str "?)")
      have h3 : (str "!").isPrefixOf w = false := hb '!' rfl []
      have h4 : (str "(!)").isPrefixOf w = false := hb '(' rfl (str "!)")
      have h5 : (str "~").isPrefixOf w = false := hb '~' rfl []
      have h6 : (str "(~)").isPrefixOf w = false := hb '(' rfl (str "~)")
      show (allPrefixStrings.any fun p => p.isPrefixOf w) = false
      rw [show allPrefixStrings
          = [str "?", str "(?)", str "!", str "(!)", str "~", str "(~)"] from rfl]
      simp [h1, h2, h3, h4, h5, h6]
    have hred : parse_dependency w
        = (splitHead (stripWs w)).map (fun m => (("require" : String), m)) := by
      unfold parse_dependency
      rw [hfalse]
      rfl
    rw [hred, stripWs_space_only hw]
    rfl
  · intro p w hp hw
    rw [show allPrefixStrings
        = [str "?", str "(?)", str "!", str "(!)", str "~", str "(~)"] from rfl] at hp
    simp only [List.mem_cons, List.not_mem_nil, or_false] at hp
    rcases hp with rfl | rfl | rfl | rfl | rfl | rfl
    · rw [show (str "?" : Str) ++ w = '?' :: w from rfl,
        parse_dependency_prefixed ('?' :: w) "optional" [['?'], ['(', '?', ')']]
          (prefixFacts_q _).1 (prefixFacts_q _).2,
        stripPair_single_spaces (b := '?') rfl hw]
      rfl
    · rw [show (str "(?)" : Str) ++ w = '(' :: '?' :: ')' :: w from rfl,
        parse_dependency_prefixed ('(' :: '?' :: ')' :: w) "optional"
          [['?'], ['(', '?', ')']] (prefixFacts_pq _).1 (prefixFacts_pq _).2,
        stripPair_paren_spaces (b := '?') rfl rfl rfl hw]
      rfl
    · rw [show (str "!" : Str) ++ w = '!' :: w from rfl,
        parse_dependency_prefixed ('!' :: w) "conflict" [['!'], ['(', '!', ')']]
          (prefixFacts_bang _).1 (prefixFacts_bang _).2,
        stripPair_single_spaces (b := '!') rfl hw]
      rfl
    · rw [show (str "(!)" : Str) ++ w = '(' :: '!' :: ')' :: w from rfl,
        parse_dependency_prefixed ('(' :: '!' :: ')' :: w) "conflict"
          [['!'], ['(', '!', ')']] (prefixFacts_pbang _).1 (prefixFacts_pbang _).2,
        stripPair_paren_spaces (b := '!') rfl rfl rfl hw]
      rfl
    · rw [show (str "~" : Str) ++ w = '~' :: w from rfl,
        parse_dependency_prefixed ('~' :: w) "parent" [['~'], ['(', '~', ')']]
          (prefixFacts_tilde _).1 (prefixFacts_tilde _).2,
        stripPair_single_spaces (b := '~') rfl hw]
      rfl
    · rw [show (str "(~)" : Str) ++ w = '(' :: '~' :: ')' :: w from rfl,
        parse_dependency_prefixed ('(' :: '~' :: ')' :: w) "parent"
          [['~'], ['(', '~', ')']] (prefixFacts_ptilde _).1 (prefixFacts_ptilde _).2,
        stripPair_paren_spaces (b := '~') rfl rfl rfl hw]
      rfl

/-- Witness for `prefix_only_declarations_fail`: the empty declaration and
the bare prefix `"? "` both fail. -/
theorem prefix_only_declarations_fail_witness :
    parse_dependency [] = none ∧ parse_dependency (str "? ") = none := by
  refine ⟨prefix_only_declarations_fail.1 [] (by decide), ?_⟩
  have h := prefix_only_declarations_fail.2 (str "?") [' '] (by decide) (by decide)
  rw [show (str "? " : Str) = str "?" ++ [' '] from rfl]
  exact h

/-- C7: the root package always reports downloaded = true, its dependency
set has all four categories empty, and removing it always fails with
`BaseModRemoveError` (the spec's `RootRemovalError`) — the raise precedes
every store mutation, so the store is untouched. -/
theorem root_package_invariants (store : List ArchiveFile) (env : Env) (fuel : Nat)
    (log : List Event) :
    downloaded baseName store = true ∧
    modDependencies baseName store env = some emptyDeps ∧
    removeGo (fuel + 1) baseName env store log = .error .baseModRemove :=
  ⟨rfl, rfl, rfl⟩

/-- C8: `Mod.download` on an already-downloaded package raises
`ModAlreadyExistsError` (the spec's `AlreadyInstalledError`) as its very
first action: no release is selected, nothing is written, the store is
unchanged. -/
theorem download_already_installed (fuel : Nat) (name : Str) (v : Option Str)
    (rj : Option Release) (env : Env) (store : List ArchiveFile) (log : List Event)
    (h : downloaded name store = true) :
    downloadGo (fuel + 1) name v rj env store log = .error (.modAlreadyExists name) := by
  rw [downloadGo]
  simp [h]

/-- Witness for `download_already_installed`: the root package is always
downloaded, even over an empty store. -/
theorem download_already_installed_witness :
    downloaded baseName [] = true ∧
    downloadGo 1 baseName none none ⟨[], []⟩ [] [] = .error (.modAlreadyExists baseName) :=
  ⟨rfl, download_already_installed 0 baseName none none ⟨[], []⟩ [] [] rfl⟩

/-- C9: a non-success catalog reply makes `download` (without explicit
release) and `update` log a warning and return an empty result instead of
raising: `download` returns with the store unchanged, `update` returns
`None` without caching. -/
theorem remote_failure_warns_and_noops (name : Str) (env : Env) (fuel : Nat) (v : Option Str)
    (store₁ store₂ : List ArchiveFile) (log : List Event)
    (hst : (lookupRemote env name).status ≠ 200)
    (h1 : downloaded name store₁ = false)
    (h2 : downloaded name store₂ = true) :
    downloadGo (fuel + 1) name v none env store₁ log
      = .ok (store₁, log ++ [.warnServerDown (lookupRemote env name).status]) ∧
    update name none env store₂ log
      = .ok (none, none, log ++ [.warnServerDown (lookupRemote env name).status]) := by
  have hb : ((lookupRemote env name).status != 200) = true := by simpa using hst
  constructor
  · rw [downloadGo]
    simp [h1, selectRelease, hb]
  · rw [update]
    simp [h2, hb]

/-- Witness for `remote_failure_warns_and_noops`: a catalog serving
status 500 for `m`, one store without `m` and one with it. -/
theorem remote_failure_warns_and_noops_witness :
    downloadGo 1 (str "m") none none ⟨str "1.0", [(str "m", ⟨500, []⟩)]⟩ [] []
      = .ok ([], [.warnServerDown 500]) ∧
    update (str "m") none ⟨str "1.0", [(str "m", ⟨500, []⟩)]⟩ [⟨str "m_1.0.zip", []⟩] []
      = .ok (none, none, [.warnServerDown 500]) := by
  have h := remote_failure_warns_and_noops (str "m") ⟨str "1.0", [(str "m", ⟨500, []⟩)]⟩ 0 none
    [] [⟨str "m_1.0.zip", []⟩] [] (by decide) (by decide) (by decide)
  exact ⟨h.1.symm.trans (by decide) |>.symm, h.2.symm.trans (by decide) |>.symm⟩

/-- C10: a supplied `release_json` short-circuits release selection: the
catalog is never consulted for it (the selection outcome is the supplied
release for every environment), the `version` argument is ignored by the
whole call, and on success the supplied release's file is exactly what is
written into the store (so neither `VersionNotFoundError` nor the
server-down warning can arise from that call's selection step). -/
theorem explicit_release_pins_download (name : Str) (v v' : Option Str) (rel : Release)
    (env : Env) (fuel : Nat) (store : List ArchiveFile) (log : List Event) :
    selectRelease name v (some rel) env = .chosen rel ∧
    downloadGo fuel name v (some rel) env store log
      = downloadGo fuel name v' (some rel) env store log ∧
    (∀ store' log', downloadGo fuel name v (some rel) env store log = .ok (store', log') →
      store ++ [⟨rel.file_name, rel.deps⟩] <+: store') := by
  refine ⟨rfl, ?_, ?_⟩
  · cases fuel <;> rfl
  · intro store' log' h
    cases fuel with
    | zero => simp [downloadGo] at h
    | succ fuel =>
      rw [downloadGo] at h
      by_cases hd : downloaded name store
      · simp [hd] at h
      · simp only [hd, if_false, Bool.false_eq_true] at h
        cases hdeps : depsAfterInstall name (store ++ [⟨rel.file_name, rel.deps⟩]) with
        | none => rw [show selectRelease name v (some rel) env = .chosen rel from rfl] at h; simp only at h; rw [hdeps] at h; exact absurd h (by simp)
        | some d =>
          rw [show selectRelease name v (some rel) env = .chosen rel from rfl] at h
          simp only at h
          rw [hdeps] at h
          exact foldlM_store_prefix _
            (by
              intro sl m s' l' hb
              by_cases hm : downloaded m sl.1
              · simp only [hm, if_true] at hb
                cases hb
                exact List.prefix_refl _
              · simp only [hm, if_false, Bool.false_eq_true] at hb
                exact downloadGo_extends fuel m none none env sl.1 sl.2 s' l' hb)
            _ _ _ _ h

/-- Witness for `explicit_release_pins_download`: downloading `m` with an
explicit release into an empty store writes exactly that release's file. -/
theorem explicit_release_pins_download_witness :
    [] ++ [(⟨str "m_1.0.zip", []⟩ : ArchiveFile)] <+: [⟨str "m_1.0.zip", []⟩] := by
  have h := explicit_release_pins_download (str "m") none (some (str "9"))
    ⟨str "1.0", str "u", str "m_1.0.zip", []⟩ ⟨str "1.0", []⟩ 1 [] []
  exact h.2.2 [⟨str "m_1.0.zip", []⟩] [.infoInstalled (str "m") (str "1.0")] (by decide)

/-- C6: removal cascade on the scenario {A, B, C} with B hard-requiring A
and C optionally referencing A ("? A"): removing B deletes B's archive,
the dependents phase removes nothing (no installed mod requires B), and
the orphan phase keeps A because C's `require + optional` categories still
name A — optional references count toward "still referenced" — so A and C
both survive.  The environment is arbitrary except for B's catalog entry,
which the orphan phase consults because B's archive is already gone.
(The source's enumeration call `Mod.downloaded_mods()` raises `TypeError`
at runtime — see `removeGo`'s doc comment — so this holds of the model in
which that enumeration behaves as its body defines.) -/
theorem remove_cascade_optional_protects
    (a b c : Str) (fuel : Nat) (env : Env)
    (ha : validNameB a = true)
    (hab : a ≠ b) (hac : a ≠ c) (hbc : b ≠ c)
    (haB : a ≠ baseName) (hbB : b ≠ baseName) (hcB : c ≠ baseName)
    (henv : lookupRemote env b
      = ⟨200, [⟨str "1.0", str "u", b ++ str "_1.0.zip", [a]⟩]⟩) :
    removeGo (fuel + 1) b env
      [⟨a ++ str "_1.0.zip", []⟩, ⟨b ++ str "_1.0.zip", [a]⟩,
       ⟨c ++ str "_1.0.zip", ['?' :: ' ' :: a]⟩] []
    = .ok ([⟨a ++ str "_1.0.zip", []⟩, ⟨c ++ str "_1.0.zip", ['?' :: ' ' :: a]⟩],
           [.infoRemoved b]) := by
  have ha0 : a ≠ [] := by
    intro h
    subst h
    simp [validNameB] at ha
  have hapl : ∀ ch ∈ a, plainChar ch = true := by
    have h2 := ha
    simp only [validNameB, Bool.and_eq_true, List.all_eq_true] at h2
    exact h2.2
  have eac : (a == c) = false := beq_eq_false_iff_ne.mpr hac
  have hdb0 : downloaded b [⟨a ++ str "_1.0.zip", []⟩, ⟨b ++ str "_1.0.zip", [a]⟩,
      ⟨c ++ str "_1.0.zip", ['?' :: ' ' :: a]⟩] = true := by
    simp [downloaded, hbB, storeNames, zipStem_std, stemName_std]
  have hrf : removeFirst [⟨a ++ str "_1.0.zip", []⟩, ⟨b ++ str "_1.0.zip", [a]⟩,
      ⟨c ++ str "_1.0.zip", ['?' :: ' ' :: a]⟩] b
      = [⟨a ++ str "_1.0.zip", []⟩, ⟨c ++ str "_1.0.zip", ['?' :: ' ' :: a]⟩] := by
    simp [removeFirst, zipStem_std, stemName_std, hab]
  have hsn1 : storeNames [⟨a ++ str "_1.0.zip", []⟩, ⟨c ++ str "_1.0.zip", ['?' :: ' ' :: a]⟩]
      = [a, c] := by
    simp [storeNames, zipStem_std, stemName_std]
  have hdn1 : downloadedNames [⟨a ++ str "_1.0.zip", []⟩,
      ⟨c ++ str "_1.0.zip", ['?' :: ' ' :: a]⟩] = [baseName, a, c] := by
    simp [downloadedNames, hsn1]
  have hbase : ∀ st : List ArchiveFile, modDependencies baseName st env = some emptyDeps :=
    fun st => rfl
  have hdepsa : modDependencies a [⟨a ++ str "_1.0.zip", []⟩,
      ⟨c ++ str "_1.0.zip", ['?' :: ' ' :: a]⟩] env = some emptyDeps := by
    simp [modDependencies, dependenciesProp, allNonempty, emptyDeps, haB, fetchRawDeps,
      downloaded, hsn1, findArchive, List.find?, zipStem_std, stemName_std, parseDeps]
  have hdepsc : modDependencies c [⟨a ++ str "_1.0.zip", []⟩,
      ⟨c ++ str "_1.0.zip", ['?' :: ' ' :: a]⟩] env = some ⟨[], [a], [], []⟩ := by
    simp [modDependencies, dependenciesProp, allNonempty, emptyDeps, hcB, fetchRawDeps,
      downloaded, hsn1, findArchive, List.find?, zipStem_std, stemName_std, parseDeps,
      parse_opt_space ha0 hapl, addDep, hac, Ne.symm hac, eac]
  have hdb1 : downloaded b [⟨a ++ str "_1.0.zip", []⟩,
      ⟨c ++ str "_1.0.zip", ['?' :: ' ' :: a]⟩] = false := by
    simp [downloaded, hbB, hsn1, Ne.symm hab, hbc]
  have hdepsb : modDependencies b [⟨a ++ str "_1.0.zip", []⟩,
      ⟨c ++ str "_1.0.zip", ['?' :: ' ' :: a]⟩] env = some ⟨[a], [], [], []⟩ := by
    simp [modDependencies, dependenciesProp, allNonempty, emptyDeps, hbB, fetchRawDeps,
      hdb1, henv, parseDeps, parse_plain ha0 hapl, addDep]
  have hrefs : anyRefs [baseName, a, c] a [⟨a ++ str "_1.0.zip", []⟩,
      ⟨c ++ str "_1.0.zip", ['?' :: ' ' :: a]⟩] env = some true := by
    simp [anyRefs, hbase, hdepsa, hdepsc, emptyDeps]
  rw [removeGo]
  rw [if_neg (by simp [hbB])]
  rw [hdb0]
  simp only [Bool.not_true, Bool.false_eq_true, if_false]
  rw [hrf]
  simp [List.foldlM_cons, List.foldlM_nil, except_ok_bind, hdn1, hbase, hdepsa, hdepsc,
    hdepsb, hrefs, emptyDeps]

/-- Witness for `remove_cascade_optional_protects`: removing `beta` from
{alpha, beta (requires alpha), gamma (? alpha)} keeps alpha and gamma. -/
theorem remove_cascade_optional_protects_witness :
    removeGo 1 (str "beta")
      ⟨str "1.0", [(str "beta",
        ⟨200, [⟨str "1.0", str "u", str "beta" ++ str "_1.0.zip", [str "alpha"]⟩]⟩)]⟩
      [⟨str "alpha" ++ str "_1.0.zip", []⟩, ⟨str "beta" ++ str "_1.0.zip", [str "alpha"]⟩,
       ⟨str "gamma" ++ str "_1.0.zip", ['?' :: ' ' :: str "alpha"]⟩] []
    = .ok ([⟨str "alpha" ++ str "_1.0.zip", []⟩,
            ⟨str "gamma" ++ str "_1.0.zip", ['?' :: ' ' :: str "alpha"]⟩],
           [.infoRemoved (str "beta")]) :=
  remove_cascade_optional_protects (str "alpha") (str "beta") (str "gamma") 0
    ⟨str "1.0", [(str "beta",
      ⟨200, [⟨str "1.0", str "u", str "beta" ++ str "_1.0.zip", [str "alpha"]⟩]⟩)]⟩
    (by decide) (by decide) (by decide) (by decide) (by decide) (by decide) (by decide)
    (by decide)

end FManager
